import Mathlib

/-!
Verification of the expense-ledger core of `src/app.py` (a WhatsApp personal-finance
assistant).  The development shallowly embeds the persistent store and the
filter/aggregation/report functions of the source file and proves the frozen claims
about them.

Modelling conventions:
* The SQLite table `expenses` is a `Store`: a list of rows plus the next
  AUTOINCREMENT id.
* SQLite `REAL` values are modelled as `Rat` (the claims never depend on binary
  floating-point rounding).
* The ISO-8601 `timestamp` strings produced by `datetime.now().isoformat()` are
  modelled by `TS`: `ym` stands for the 7-character year-month piece
  (`substr(timestamp, 1, 7)`), `day` for the day piece, and `tod` for the remaining
  time-of-day piece.  Lexicographic comparison of equal-format ISO strings is
  exactly the lexicographic comparison of these three fields.
* `ORDER BY timestamp DESC` leaves the relative order of equal keys unspecified in
  SQLite; it is modelled as a deterministic stable insertion sort.
-/

/-- Timestamp model for the ISO strings stored in the `timestamp` column.
`ym` models `substr(timestamp, 1, 7)` (year-month), `day` the day-of-month
characters, `tod` the remaining time-of-day characters. -/
structure TS where
  ym : Nat
  day : Nat
  tod : Nat
  deriving DecidableEq, Repr

/-- Lexicographic order on timestamps, the order SQLite's string comparison
induces on equal-format ISO-8601 timestamps. -/
def tsLe (a b : TS) : Bool :=
  decide (a.ym < b.ym) ||
    (decide (a.ym = b.ym) &&
      (decide (a.day < b.day) || (decide (a.day = b.day) && decide (a.tod ≤ b.tod))))

/-- One row of the `expenses` table (`id, user_id, value, category, timestamp`). -/
structure Expense where
  id : Nat
  user_id : String
  value : Rat
  category : String
  timestamp : TS
  deriving DecidableEq, Repr

/-- The `expenses` table together with the next AUTOINCREMENT id. -/
structure Store where
  rows : List Expense
  nextId : Nat
  deriving DecidableEq, Repr

/-- ASCII upper-to-lower case table.  Both Python's `str.lower` (applied to the
ASCII-only output of `encode('ascii','ignore')`) and SQLite's `lower`/`LIKE`
case folding act exactly on these 26 letters. -/
def upperMap : List (Char × Char) :=
  [('A','a'), ('B','b'), ('C','c'), ('D','d'), ('E','e'), ('F','f'), ('G','g'),
   ('H','h'), ('I','i'), ('J','j'), ('K','k'), ('L','l'), ('M','m'), ('N','n'),
   ('O','o'), ('P','p'), ('Q','q'), ('R','r'), ('S','s'), ('T','t'), ('U','u'),
   ('V','v'), ('W','w'), ('X','x'), ('Y','y'), ('Z','z')]

/-- ASCII-only lower-casing of a single character. -/
def asciiLower (c : Char) : Char := (upperMap.lookup c).getD c

/-- Latin accented letters and the ASCII base letter their NFKD decomposition
starts with.  Covers the Latin-1 accented letters; the claims only exercise
characters from this table. -/
def accentTable : List (Char × Char) :=
  [('á','a'), ('à','a'), ('â','a'), ('ã','a'), ('ä','a'), ('å','a'),
   ('Á','A'), ('À','A'), ('Â','A'), ('Ã','A'), ('Ä','A'), ('Å','A'),
   ('é','e'), ('è','e'), ('ê','e'), ('ë','e'),
   ('É','E'), ('È','E'), ('Ê','E'), ('Ë','E'),
   ('í','i'), ('ì','i'), ('î','i'), ('ï','i'),
   ('Í','I'), ('Ì','I'), ('Î','I'), ('Ï','I'),
   ('ó','o'), ('ò','o'), ('ô','o'), ('õ','o'), ('ö','o'),
   ('Ó','O'), ('Ò','O'), ('Ô','O'), ('Õ','O'), ('Ö','O'),
   ('ú','u'), ('ù','u'), ('û','u'), ('ü','u'),
   ('Ú','U'), ('Ù','U'), ('Û','U'), ('Ü','U'),
   ('ç','c'), ('Ç','C'), ('ñ','n'), ('Ñ','N'),
   ('ý','y'), ('Ý','Y')]

/-- Character-wise model of `unicodedata.normalize('NFKD', ·)` followed by
`encode('ascii', 'ignore')`: an ASCII character survives unchanged, a Latin
accented letter decomposes to its base letter plus a combining mark that the
ASCII encoding drops, and any other non-ASCII character is dropped. -/
def nfkdAscii (c : Char) : List Char :=
  if c.toNat < 128 then [c]
  else
    match accentTable.lookup c with
    | some b => [b]
    | none => []

/-- `nfkdAscii` applied across a whole string. -/
def normChars : List Char → List Char
  | [] => []
  | c :: l => nfkdAscii c ++ normChars l

/-- Model of `normalize_text` (src/app.py line 327): NFKD-decompose, drop
non-ASCII, then lower-case. -/
def normalize_text (t : String) : String :=
  String.mk ((normChars t.data).map asciiLower)

/-- Fuel-driven worker for the SQLite `LIKE` matcher: `%` matches any run of
characters, `_` matches exactly one character, and ordinary characters compare
after ASCII case folding (SQLite's default `LIKE` is case-insensitive for
ASCII only). -/
def likeStep : Nat → List Char → List Char → Bool
  | 0, _, _ => false
  | _ + 1, [], s => s.isEmpty
  | n + 1, '%' :: ps, s =>
      likeStep n ps s ||
        (match s with
          | [] => false
          | _ :: s2 => likeStep n ('%' :: ps) s2)
  | n + 1, '_' :: ps, s =>
      (match s with
        | [] => false
        | _ :: s2 => likeStep n ps s2)
  | n + 1, p :: ps, s =>
      (match s with
        | [] => false
        | c :: s2 => decide (asciiLower p = asciiLower c) && likeStep n ps s2)

/-- SQLite `LIKE` pattern matching.  Every recursive step of `likeStep` shrinks
`pattern.length + str.length`, so this fuel always suffices. -/
def likeMatch (pattern str : List Char) : Bool :=
  likeStep (pattern.length + str.length + 1) pattern str

/-- `leadMatch needle hay` holds when `hay` starts with `needle` (literal
character comparison, no wildcards). -/
def leadMatch : List Char → List Char → Bool
  | [], _ => true
  | _ :: _, [] => false
  | a :: as, b :: bs => decide (a = b) && leadMatch as bs

/-- Literal (wildcard-free) substring test, used to state what a `LIKE` match
is *not*. -/
def hasSub (needle : List Char) : List Char → Bool
  | [] => needle.isEmpty
  | c :: cs => leadMatch needle (c :: cs) || hasSub needle cs

/-- Strict lexicographic order on character lists by code point, the order
Python/numpy use when pandas' `groupby(sort=True)` sorts string keys. -/
def lexLt : List Char → List Char → Bool
  | [], [] => false
  | [], _ :: _ => true
  | _ :: _, [] => false
  | a :: as, b :: bs => if a = b then lexLt as bs else decide (a < b)

/-- Strict lexicographic order on strings. -/
def strLt (a b : String) : Bool := lexLt a.data b.data

/-- Non-strict lexicographic order on strings, as the complement of `strLt`. -/
def strLeB (a b : String) : Bool := !(strLt b a)

/-- Insert `a` into `l` in front of the first element that is not
`le`-smaller: one step of a stable insertion sort. -/
def insertIn {α : Type _} (le : α → α → Bool) (a : α) : List α → List α
  | [] => [a]
  | b :: l => if le a b then a :: b :: l else b :: insertIn le a l

/-- Stable insertion sort, the deterministic model used for SQLite's
`ORDER BY` and for pandas' stable small-array sorts. -/
def insertionSortBy {α : Type _} (le : α → α → Bool) : List α → List α
  | [] => []
  | a :: l => insertIn le a (insertionSortBy le l)

/-- Duplicate elimination for the pandas `groupby` key set (the surviving
occurrence is irrelevant because the keys are sorted immediately after). -/
def uniqKeys : List String → List String
  | [] => []
  | a :: l => if a ∈ l then uniqKeys l else a :: uniqKeys l

/-- Model of `save_expense` (src/app.py lines 88-102): INSERT a new row with
the next AUTOINCREMENT id and the current timestamp, and return
`cursor.lastrowid`. -/
def save_expense (s : Store) (user_id : String) (value : Rat) (category : String)
    (now : TS) : Nat × Store :=
  (s.nextId,
    ⟨s.rows ++ [{ id := s.nextId, user_id := user_id, value := value,
                  category := category, timestamp := now }],
     s.nextId + 1⟩)

/-- Model of `get_expense_by_id` (src/app.py lines 105-113): SELECT the first
row matching both `id` and `user_id`, `None` when there is none. -/
def get_expense_by_id (s : Store) (expense_id : Nat) (user_id : String) :
    Option Expense :=
  s.rows.find? (fun r => decide (r.id = expense_id) && decide (r.user_id = user_id))

/-- Model of `delete_expense` (src/app.py lines 116-127): DELETE the rows
matching both `id` and `user_id`; the returned Bool is `rows_affected > 0`. -/
def delete_expense (s : Store) (expense_id : Nat) (user_id : String) :
    Bool × Store :=
  (decide (0 < s.rows.countP
      (fun r => decide (r.id = expense_id) && decide (r.user_id = user_id))),
   ⟨s.rows.filter
      (fun r => !(decide (r.id = expense_id) && decide (r.user_id = user_id))),
    s.nextId⟩)

/-- Model of `update_expense` (src/app.py lines 130-157): with no supplied
field the function returns `False` before touching the database; otherwise it
UPDATEs the supplied fields of the rows matching both `id` and `user_id` and
returns `rows_affected > 0`. -/
def update_expense (s : Store) (expense_id : Nat) (user_id : String)
    (new_value : Option Rat) (new_category : Option String) : Bool × Store :=
  if new_value.isNone && new_category.isNone then (false, s)
  else
    (decide (0 < s.rows.countP
        (fun r => decide (r.id = expense_id) && decide (r.user_id = user_id))),
     ⟨s.rows.map (fun r =>
        if decide (r.id = expense_id) && decide (r.user_id = user_id) then
          { r with value := new_value.getD r.value,
                   category := new_category.getD r.category }
        else r),
      s.nextId⟩)

/-- WHERE clause plus ORDER BY of `get_expenses` (src/app.py lines 160-204):
filter by owner, then by the period predicate, then by the normalized category
`LIKE` pattern against `lower(category)`, then sort by timestamp descending.
`now` models `datetime.now()` and `weekAgo` models
`datetime.now() - timedelta(days=7)`. -/
def filteredSorted (s : Store) (user_id : String) (period_type : Option String)
    (category : Option String) (now weekAgo : TS) : List Expense :=
  let l0 := s.rows.filter (fun r => decide (r.user_id = user_id))
  let l1 :=
    if period_type = some "hoje" then
      l0.filter (fun r =>
        decide (r.timestamp.ym = now.ym) && decide (r.timestamp.day = now.day))
    else if period_type = some "este mês" then
      l0.filter (fun r => decide (r.timestamp.ym = now.ym))
    else if period_type = some "ultimos 7 dias" then
      l0.filter (fun r => tsLe weekAgo r.timestamp)
    else l0
  let l2 :=
    match category with
    | some c =>
        if c = "" then l1
        else
          l1.filter (fun r =>
            likeMatch ('%' :: ((normalize_text c).data ++ ['%']))
              (r.category.data.map asciiLower))
    | none => l1
  insertionSortBy (fun a b => tsLe b.timestamp a.timestamp) l2

/-- Model of `get_expenses` (src/app.py lines 160-204).  The final `LIMIT` is
attached only when `period_type == 'ultimas_x'` and a limit was supplied;
SQLite treats a negative LIMIT as "no limit" and `LIMIT 0` as an empty
result. -/
def get_expenses (s : Store) (user_id : String) (period_type : Option String)
    (category : Option String) (limit : Option Int) (now weekAgo : TS) :
    List Expense :=
  let l3 := filteredSorted s user_id period_type category now weekAgo
  if period_type = some "ultimas_x" then
    match limit with
    | some l => if l < 0 then l3 else l3.take l.toNat
    | none => l3
  else l3

/-- Sum of the values of the rows in one category, the per-group sum computed
by `df.groupby('category')['value'].sum()`. -/
def catSum (rows : List Expense) (k : String) : Rat :=
  ((rows.filter (fun r => decide (r.category = k))).map (fun r => r.value)).sum

/-- Model of the aggregation inside `generate_expense_graph` (src/app.py lines
222-227): `df.groupby('category')['value'].sum().sort_values(ascending=False)`.
pandas' `groupby(sort=True)` lists the group keys in ascending lexicographic
order; `sort_values(ascending=False)` computes an ascending argsort with
numpy's default quicksort and reverses it (`nargsort`).  The argsort's
relative order of equal sums is unspecified in general (numpy's introsort is
stable only below its small-array insertion-sort cutoff), so the program
guarantees no tie order; the model must still pick a computable sort and uses
a stable one, which coincides with the program on small inputs such as the
two-group counterexample below.  Universal theorems about `summarize` assert
only tie-order-independent properties. -/
def summarize (rows : List Expense) : List (String × Rat) :=
  let keys := insertionSortBy strLeB (uniqKeys (rows.map (fun r => r.category)))
  (insertionSortBy (fun p q => decide (p.2 ≤ q.2))
      (keys.map (fun k => (k, catSum rows k)))).reverse

/-- Filename fragment standing for `datetime.now().strftime("%Y%m%d_%H%M%S")`. -/
def tsName (t : TS) : String :=
  toString t.ym ++ "_" ++ toString t.day ++ "_" ++ toString t.tod

/-- Path of the chart image written by `generate_expense_graph`. -/
def graphPath (user_id : String) (now : TS) : String :=
  "graphs/gastos_" ++ user_id ++ "_" ++ tsName now ++ ".png"

/-- Path of the spreadsheet written by `generate_expense_excel`. -/
def excelPath (user_id : String) (now : TS) : String :=
  "excel_reports/despesas_" ++ user_id ++ "_" ++ tsName now ++ ".xlsx"

/-- Model of `generate_expense_graph` (src/app.py lines 207-260): query the
filtered set (no limit); on an empty set return `None` without writing a file;
otherwise aggregate per category and save the chart, returning the path.  The
result pairs the returned value with the list of files written; `saveOk`
models whether `plt.savefig` succeeds (a failed save is caught, returns `None`
and is modelled as writing nothing).  The plot contents themselves (title,
axis labels) are not modelled: no claim mentions them. -/
def generate_expense_graph (s : Store) (user_id : String)
    (period_type category : Option String) (now weekAgo : TS) (saveOk : Bool) :
    Option String × List String :=
  if (get_expenses s user_id period_type category none now weekAgo).isEmpty then
    (none, [])
  else if (summarize (get_expenses s user_id period_type category none now weekAgo)).isEmpty then
    (none, [])
  else if saveOk then (some (graphPath user_id now), [graphPath user_id now])
  else (none, [])

/-- Model of `generate_expense_excel` (src/app.py lines 263-322): query the
filtered set (no limit); on an empty set return `None` without writing a file;
otherwise save the workbook and return its path.  `saveOk` models whether
`wb.save` succeeds.  The sheet contents (header row, data rows, grand-total
row, column widths) are not modelled: no claim mentions them. -/
def generate_expense_excel (s : Store) (user_id : String)
    (period_type category : Option String) (now weekAgo : TS) (saveOk : Bool) :
    Option String × List String :=
  if (get_expenses s user_id period_type category none now weekAgo).isEmpty then
    (none, [])
  else if saveOk then (some (excelPath user_id now), [excelPath user_id now])
  else (none, [])

/-! Order lemmas for the timestamp comparison. -/

/-- The timestamp order is total. -/
theorem tsLe_total (a b : TS) : tsLe a b = true ∨ tsLe b a = true := by
  simp only [tsLe, Bool.or_eq_true, Bool.and_eq_true, decide_eq_true_eq]
  omega

/-- The timestamp order is transitive. -/
theorem tsLe_trans (a b c : TS) (h1 : tsLe a b = true) (h2 : tsLe b c = true) :
    tsLe a c = true := by
  simp only [tsLe, Bool.or_eq_true, Bool.and_eq_true, decide_eq_true_eq] at h1 h2 ⊢
  omega

/-! Generic list helpers used by the store proofs. -/

/-- A `find?` over rows that all fail the predicate finds nothing. -/
theorem find?_none_of_all {α : Type _} (p : α → Bool) (l : List α)
    (h : ∀ x ∈ l, p x = false) : l.find? p = none :=
  List.find?_eq_none.mpr (fun x hx => by simp [h x hx])

/-- When the left part of an append finds nothing, `find?` continues on the
right part. -/
theorem find?_append_left_none {α : Type _} (p : α → Bool) (l1 l2 : List α)
    (h : l1.find? p = none) : (l1 ++ l2).find? p = l2.find? p := by
  induction l1 with
  | nil => rfl
  | cons a l ih =>
    simp only [List.find?] at h ⊢
    cases hpa : p a with
    | true => simp [hpa] at h
    | false => simpa [hpa] using ih (by simpa [hpa] using h)

/-- `find?` returns the unique element satisfying the predicate. -/
theorem find?_unique {α : Type _} (p : α → Bool) (l : List α) (a : α)
    (ha : a ∈ l) (hpa : p a = true) (huniq : ∀ b ∈ l, p b = true → b = a) :
    l.find? p = some a := by
  induction l with
  | nil => cases ha
  | cons b l ih =>
    simp only [List.find?]
    cases hpb : p b with
    | true => simpa using huniq b (by simp) hpb
    | false =>
      rcases List.mem_cons.mp ha with h | h
      · subst h; simp [hpb] at hpa
      · exact ih h (fun x hx hpx => huniq x (by simp [hx]) hpx)

/-- A map that fixes every member of a list fixes the list. -/
theorem map_id_of {α : Type _} (f : α → α) (l : List α) (h : ∀ x ∈ l, f x = x) :
    l.map f = l := by
  induction l with
  | nil => rfl
  | cons a l ih =>
    simp only [List.map, h a (by simp)]
    simpa using ih (fun x hx => h x (by simp [hx]))

/-- A filter whose predicate holds on every member keeps the whole list. -/
theorem filter_all_true {α : Type _} (p : α → Bool) (l : List α)
    (h : ∀ x ∈ l, p x = true) : l.filter p = l := by
  induction l with
  | nil => rfl
  | cons a l ih =>
    simp only [List.filter, h a (by simp)]
    simpa using ih (fun x hx => h x (by simp [hx]))

/-- Every list is vacuously pairwise under the trivial relation. -/
theorem pairwise_trivial {α : Type _} (l : List α) :
    l.Pairwise (fun _ _ => True) := by
  induction l with
  | nil => exact List.Pairwise.nil
  | cons a l ih => exact List.Pairwise.cons (fun _ _ => trivial) ih

/-! Correctness of the stable insertion sort. -/

/-- Inserting an element permutes consing it in front. -/
theorem insertIn_perm {α : Type _} (le : α → α → Bool) (a : α) (l : List α) :
    List.Perm (insertIn le a l) (a :: l) := by
  induction l with
  | nil => simp [insertIn]
  | cons b l ih =>
    simp only [insertIn]
    cases h : le a b with
    | true => simp
    | false => exact (ih.cons b).trans (List.Perm.swap a b l)

/-- The insertion sort permutes its input. -/
theorem insertionSortBy_perm {α : Type _} (le : α → α → Bool) (l : List α) :
    List.Perm (insertionSortBy le l) l := by
  induction l with
  | nil => exact List.Perm.refl []
  | cons a l ih => exact (insertIn_perm le a _).trans (ih.cons a)

/-- The insertion sort preserves membership. -/
theorem mem_insertionSortBy {α : Type _} (le : α → α → Bool) (l : List α)
    (x : α) : x ∈ insertionSortBy le l ↔ x ∈ l :=
  (insertionSortBy_perm le l).mem_iff

/-- Combined ordering-and-stability relation: consecutive sorted elements are
`le`-ordered, and when they are `le`-equivalent they keep the auxiliary
relation `r` they had in the input. -/
def stRel {α : Type _} (le : α → α → Bool) (r : α → α → Prop) (a b : α) : Prop :=
  le a b = true ∧ (le b a = true → r a b)

/-- Inserting into a sorted list preserves the combined
ordering-and-stability relation. -/
theorem insertIn_pairwise {α : Type _} {le : α → α → Bool} {r : α → α → Prop}
    (htot : ∀ a b, le a b = true ∨ le b a = true)
    (htrans : ∀ a b c, le a b = true → le b c = true → le a c = true)
    {a : α} {l : List α} (hl : l.Pairwise (stRel le r)) (ha : ∀ b ∈ l, r a b) :
    (insertIn le a l).Pairwise (stRel le r) := by
  induction l with
  | nil => simp [insertIn, List.pairwise_singleton]
  | cons b l ih =>
    rcases List.pairwise_cons.mp hl with ⟨hb, hl2⟩
    simp only [insertIn]
    cases hab : le a b with
    | true =>
      refine List.pairwise_cons.mpr ⟨?_, hl⟩
      intro c hc
      rcases List.mem_cons.mp hc with h | h
      · exact h ▸ ⟨hab, fun _ => ha b (by simp)⟩
      · exact ⟨htrans a b c hab (hb c h).1, fun _ => ha c (by simp [h])⟩
    | false =>
      refine List.pairwise_cons.mpr ⟨?_, ih hl2 (fun c hc => ha c (by simp [hc]))⟩
      intro c hc
      rcases List.mem_cons.mp ((insertIn_perm le a l).mem_iff.mp hc) with rfl | h
      · refine ⟨(htot c b).resolve_left (by simp [hab]), fun habt => ?_⟩
        simp [habt] at hab
      · exact hb c h

/-- The insertion sort of a list that is pairwise `r` is pairwise ordered,
and stable: `le`-equivalent elements keep their input order `r`. -/
theorem insertionSortBy_pairwise {α : Type _} {le : α → α → Bool}
    {r : α → α → Prop}
    (htot : ∀ a b, le a b = true ∨ le b a = true)
    (htrans : ∀ a b c, le a b = true → le b c = true → le a c = true)
    (l : List α) (hl : l.Pairwise r) :
    (insertionSortBy le l).Pairwise (stRel le r) := by
  induction l with
  | nil => exact List.Pairwise.nil
  | cons a l ih =>
    rcases List.pairwise_cons.mp hl with ⟨ha, hl2⟩
    exact insertIn_pairwise htot htrans (ih hl2)
      (fun b hb => ha b ((mem_insertionSortBy le l b).mp hb))

/-- The insertion sort output is sorted for a total transitive comparison. -/
theorem insertionSortBy_sorted {α : Type _} {le : α → α → Bool}
    (htot : ∀ a b, le a b = true ∨ le b a = true)
    (htrans : ∀ a b c, le a b = true → le b c = true → le a c = true)
    (l : List α) :
    (insertionSortBy le l).Pairwise (fun a b => le a b = true) :=
  (insertionSortBy_pairwise htot htrans l (pairwise_trivial l)).imp
    (fun h => h.1)

/-- `uniqKeys` preserves membership. -/
theorem mem_uniqKeys (l : List String) (x : String) :
    x ∈ uniqKeys l ↔ x ∈ l := by
  induction l with
  | nil => simp [uniqKeys]
  | cons a l ih =>
    simp only [uniqKeys]
    by_cases h : a ∈ l
    · rw [if_pos h, ih]
      constructor
      · exact fun hx => List.mem_cons_of_mem a hx
      · intro hx
        rcases List.mem_cons.mp hx with rfl | hx
        · exact h
        · exact hx
    · rw [if_neg h]
      simp [ih]

/-- `uniqKeys` produces a duplicate-free list. -/
theorem nodup_uniqKeys (l : List String) : (uniqKeys l).Nodup := by
  induction l with
  | nil => exact List.nodup_nil
  | cons a l ih =>
    simp only [uniqKeys]
    by_cases h : a ∈ l
    · rwa [if_pos h]
    · rw [if_neg h]
      exact List.nodup_cons.mpr ⟨fun hx => h ((mem_uniqKeys l a).mp hx), ih⟩

/-! Lemmas about the text normalizer. -/

/-- A successful association-list lookup returns a stored pair. -/
theorem lookup_mem {β : Type _} : ∀ (l : List (Char × β)) (k : Char) (b : β),
    l.lookup k = some b → (k, b) ∈ l
  | [], _, _, h => by simp [List.lookup] at h
  | (k2, b2) :: l, k, b, h => by
    simp only [List.lookup] at h
    cases hk : (k == k2) with
    | true =>
      rw [hk] at h
      cases h
      exact (beq_iff_eq.mp hk : k = k2) ▸ List.mem_cons_self _ _
    | false =>
      rw [hk] at h
      exact List.mem_cons_of_mem _ (lookup_mem l k b h)

/-- Every replacement in the accent table is an ASCII character. -/
theorem accentTable_ascii : ∀ p ∈ accentTable, p.2.toNat < 128 := by decide

/-- Every lower-case replacement in the case table is an ASCII character. -/
theorem upperMap_ascii : ∀ p ∈ upperMap, p.2.toNat < 128 := by decide

/-- Replacement characters of the case table are never its keys. -/
theorem upperMap_vals_not_keys : ∀ p ∈ upperMap, upperMap.lookup p.2 = none := by
  decide

/-- ASCII lower-casing keeps characters inside ASCII. -/
theorem asciiLower_ascii (c : Char) (h : c.toNat < 128) :
    (asciiLower c).toNat < 128 := by
  unfold asciiLower
  cases hk : upperMap.lookup c with
  | none => simpa using h
  | some b => simpa using upperMap_ascii _ (lookup_mem _ _ _ hk)

/-- ASCII lower-casing is idempotent. -/
theorem asciiLower_idem (c : Char) : asciiLower (asciiLower c) = asciiLower c := by
  unfold asciiLower
  cases hk : upperMap.lookup c with
  | none => simp [hk]
  | some b =>
    simp only [hk, Option.getD_some]
    simp [upperMap_vals_not_keys _ (lookup_mem _ _ _ hk)]

/-- ASCII characters pass through the NFKD/ASCII-filter stage unchanged. -/
theorem nfkdAscii_of_ascii (c : Char) (h : c.toNat < 128) : nfkdAscii c = [c] := by
  simp [nfkdAscii, h]

/-- Everything the NFKD/ASCII-filter stage emits is ASCII. -/
theorem nfkdAscii_mem_ascii (c d : Char) (h : d ∈ nfkdAscii c) :
    d.toNat < 128 := by
  unfold nfkdAscii at h
  by_cases hc : c.toNat < 128
  · rw [if_pos hc] at h
    simp at h
    exact h ▸ hc
  · rw [if_neg hc] at h
    cases hk : accentTable.lookup c with
    | none => simp [hk] at h
    | some b =>
      rw [hk] at h
      simp at h
      exact h ▸ accentTable_ascii _ (lookup_mem _ _ _ hk)

/-- The whole normalization pipeline emits only ASCII characters. -/
theorem normChars_ascii (l : List Char) : ∀ d ∈ normChars l, d.toNat < 128 := by
  induction l with
  | nil => simp [normChars]
  | cons c l ih =>
    intro d hd
    rcases List.mem_append.mp hd with h | h
    · exact nfkdAscii_mem_ascii c d h
    · exact ih d h

/-- An all-ASCII string passes through the NFKD/ASCII-filter stage unchanged. -/
theorem normChars_fixed (l : List Char) (h : ∀ d ∈ l, d.toNat < 128) :
    normChars l = l := by
  induction l with
  | nil => rfl
  | cons c l ih =>
    simp only [normChars, nfkdAscii_of_ascii c (h c (by simp))]
    simp [ih (fun d hd => h d (by simp [hd]))]

/-- Mapping the ASCII lower-caser twice is the same as mapping it once. -/
theorem map_asciiLower_idem (l : List Char) :
    (l.map asciiLower).map asciiLower = l.map asciiLower := by
  induction l with
  | nil => rfl
  | cons c l ih => simp [asciiLower_idem, ih]

/-! The claims. -/

/-- C6: `update_expense` with neither a new value nor a new category supplied
returns `False` and leaves the stored records (and thus every record's id,
owner, value, category and timestamp) entirely unchanged, because the source
returns before touching the database. -/
theorem c6_update_noop (s : Store) (expense_id : Nat) (user_id : String) :
    update_expense s expense_id user_id none none = (false, s) := rfl

/-- C8: `normalize_text` always succeeds, maps the empty string to the empty
string, and is idempotent: normalizing an already-normalized string is a
no-op. -/
theorem c8_normalize_idempotent :
    normalize_text "" = "" ∧
      ∀ s : String, normalize_text (normalize_text s) = normalize_text s := by
  refine ⟨rfl, fun s => ?_⟩
  show String.mk ((normChars (String.mk ((normChars s.data).map asciiLower)).data).map asciiLower)
      = String.mk ((normChars s.data).map asciiLower)
  have hin : ∀ d ∈ (normChars s.data).map asciiLower, d.toNat < 128 := by
    intro d hd
    rcases List.mem_map.mp hd with ⟨e, he, rfl⟩
    exact asciiLower_ascii e (normChars_ascii _ e he)
  rw [show (String.mk ((normChars s.data).map asciiLower)).data
        = (normChars s.data).map asciiLower from rfl]
  rw [normChars_fixed _ hin, map_asciiLower_idem]

/-- C9: when the filtered record set is empty, both report generators return
the no-data signal (`none`, not an error) and write no file. -/
theorem c9_empty_no_file (s : Store) (user_id : String)
    (period_type category : Option String) (now weekAgo : TS) (saveOk : Bool)
    (h : get_expenses s user_id period_type category none now weekAgo = []) :
    generate_expense_graph s user_id period_type category now weekAgo saveOk
        = (none, [])
      ∧ generate_expense_excel s user_id period_type category now weekAgo saveOk
        = (none, []) := by
  constructor
  · unfold generate_expense_graph
    rw [h]
    rfl
  · unfold generate_expense_excel
    rw [h]
    rfl

/-- Concrete empty store for the C9 witness. -/
def c9S : Store := ⟨[], 1⟩

/-- Witness for C9: both generators on an empty store return no-data and
write nothing. -/
theorem c9_witness :
    generate_expense_graph c9S "u" none none ⟨1, 1, 1⟩ ⟨1, 1, 1⟩ true = (none, [])
      ∧ generate_expense_excel c9S "u" none none ⟨1, 1, 1⟩ ⟨1, 1, 1⟩ true
        = (none, []) :=
  c9_empty_no_file c9S "u" none none ⟨1, 1, 1⟩ ⟨1, 1, 1⟩ true rfl

/-- C1: creating an expense and fetching it back with the same owner returns
a record whose value and category are the ones supplied and whose timestamp
is the in-call clock reading `now`, hence no earlier than any start time
`start` with `start ≤ now`. -/
theorem c1_create_then_get (s : Store) (user_id category : String) (value : Rat)
    (start now : TS) (hwf : ∀ r ∈ s.rows, r.id < s.nextId)
    (hstart : tsLe start now = true) :
    ∃ r : Expense,
      get_expense_by_id (save_expense s user_id value category now).2
          (save_expense s user_id value category now).1 user_id = some r
        ∧ r.value = value ∧ r.category = category
        ∧ tsLe start r.timestamp = true := by
  refine ⟨⟨s.nextId, user_id, value, category, now⟩, ?_, rfl, rfl, hstart⟩
  show (s.rows ++ [(⟨s.nextId, user_id, value, category, now⟩ : Expense)]).find?
      (fun r => decide (r.id = s.nextId) && decide (r.user_id = user_id)) = _
  rw [find?_append_left_none]
  · simp [List.find?]
  · refine find?_none_of_all _ _ (fun r hr => ?_)
    have hne : r.id ≠ s.nextId := Nat.ne_of_lt (hwf r hr)
    simp [hne]

/-- Concrete empty store for the C1 witness. -/
def c1S : Store := ⟨[], 1⟩

/-- Witness for C1 at a concrete store and inputs. -/
theorem c1_witness :
    ∃ r : Expense,
      get_expense_by_id (save_expense c1S "u" 5 "Food" ⟨1, 1, 1⟩).2
          (save_expense c1S "u" 5 "Food" ⟨1, 1, 1⟩).1 "u" = some r
        ∧ r.value = 5 ∧ r.category = "Food" ∧ tsLe ⟨1, 1, 0⟩ r.timestamp = true :=
  c1_create_then_get c1S "u" "Food" 5 ⟨1, 1, 0⟩ ⟨1, 1, 1⟩ (by decide) (by decide)

/-- C2: with a mismatched owner, `get` answers exactly as for an absent id
(`none`), `update` and `delete` return `False` and leave the store unchanged,
and after the cross-owner delete the true owner still gets the original
record back; nothing distinguishes "wrong owner" from "absent id". -/
theorem c2_owner_scoping (s : Store) (r : Expense) (u2 : String)
    (vOpt : Option Rat) (cOpt : Option String)
    (hr : r ∈ s.rows) (hids : (s.rows.map (fun e => e.id)).Nodup)
    (hu : u2 ≠ r.user_id) :
    get_expense_by_id s r.id u2 = none
      ∧ update_expense s r.id u2 vOpt cOpt = (false, s)
      ∧ delete_expense s r.id u2 = (false, s)
      ∧ get_expense_by_id (delete_expense s r.id u2).2 r.id r.user_id
        = some r := by
  have hinj := List.inj_on_of_nodup_map hids
  have hfalse : ∀ e ∈ s.rows,
      (decide (e.id = r.id) && decide (e.user_id = u2)) = false := by
    intro e he
    by_cases h1 : e.id = r.id
    · have heq : e = r := hinj he hr h1
      have h2 : e.user_id ≠ u2 := by
        rw [heq]
        exact fun h => hu h.symm
      simp [h2]
    · simp [h1]
  have hcount : s.rows.countP
      (fun e => decide (e.id = r.id) && decide (e.user_id = u2)) = 0 :=
    List.countP_eq_zero.mpr (fun e he => by simp [hfalse e he])
  have h3 : delete_expense s r.id u2 = (false, s) := by
    have hfilter : s.rows.filter
        (fun e => !(decide (e.id = r.id) && decide (e.user_id = u2))) = s.rows :=
      filter_all_true _ _ (fun e he => by rw [hfalse e he]; rfl)
    unfold delete_expense
    rw [hcount, hfilter]
    rfl
  refine ⟨find?_none_of_all _ _ hfalse, ?_, h3, ?_⟩
  · by_cases hb : (vOpt.isNone && cOpt.isNone) = true
    · unfold update_expense
      rw [if_pos hb]
    · unfold update_expense
      rw [if_neg hb]
      have hmap : s.rows.map (fun e =>
          if decide (e.id = r.id) && decide (e.user_id = u2) then
            { e with value := vOpt.getD e.value, category := cOpt.getD e.category }
          else e) = s.rows :=
        map_id_of _ _ (fun e he => by rw [hfalse e he]; rfl)
      rw [hcount, hmap]
      rfl
  · rw [show (delete_expense s r.id u2).2 = s from congrArg Prod.snd h3]
    refine find?_unique _ _ r hr (by simp) (fun b hb hpb => ?_)
    simp only [Bool.and_eq_true, decide_eq_true_eq] at hpb
    exact hinj hb hr hpb.1

/-- Concrete one-record store for the C2 witness. -/
def c2Row : Expense := ⟨1, "U1", 5, "Food", ⟨1, 1, 1⟩⟩

/-- Concrete store holding only `c2Row`. -/
def c2S : Store := ⟨[c2Row], 2⟩

/-- Witness for C2: owner `U2` cannot see, edit or delete `U1`'s record. -/
theorem c2_witness :
    get_expense_by_id c2S c2Row.id "U2" = none
      ∧ update_expense c2S c2Row.id "U2" (some 7) none = (false, c2S)
      ∧ delete_expense c2S c2Row.id "U2" = (false, c2S)
      ∧ get_expense_by_id (delete_expense c2S c2Row.id "U2").2 c2Row.id
        c2Row.user_id = some c2Row :=
  c2_owner_scoping c2S c2Row "U2" (some 7) none (by decide) (by decide)
    (by decide)

/-- Unfolding of `get_expenses` for period `ultimas_x` with a supplied limit:
SQLite applies `LIMIT k` after ordering, treating a negative `k` as no limit
and `k = 0` as an empty result. -/
theorem get_expenses_ultimas_some (s : Store) (user_id : String)
    (category : Option String) (now weekAgo : TS) (k : Int) :
    get_expenses s user_id (some "ultimas_x") category (some k) now weekAgo
      = (if k < 0 then
          filteredSorted s user_id (some "ultimas_x") category now weekAgo
        else
          (filteredSorted s user_id (some "ultimas_x") category now weekAgo).take
            k.toNat) := rfl

/-- C3 (amended): for period `last_n`, a positive limit `k` caps the result to
the first `k` records of the timestamp-descending ordering (the `k` most
recent) and a missing or negative limit leaves the result uncapped, but a
zero limit yields the empty result rather than "no limit". -/
theorem c3_limit_amended (s : Store) (user_id : String)
    (category : Option String) (now weekAgo : TS) (k : Int) :
    (0 < k →
      get_expenses s user_id (some "ultimas_x") category (some k) now weekAgo
          = (get_expenses s user_id (some "ultimas_x") category none now
              weekAgo).take k.toNat
        ∧ (get_expenses s user_id (some "ultimas_x") category (some k) now
            weekAgo).length ≤ k.toNat)
      ∧ (k < 0 →
        get_expenses s user_id (some "ultimas_x") category (some k) now weekAgo
          = get_expenses s user_id (some "ultimas_x") category none now weekAgo)
      ∧ get_expenses s user_id (some "ultimas_x") category (some 0) now weekAgo
        = [] := by
  have hnone : get_expenses s user_id (some "ultimas_x") category none now weekAgo
      = filteredSorted s user_id (some "ultimas_x") category now weekAgo := rfl
  refine ⟨fun hk => ?_, fun hk => ?_, ?_⟩
  · have hlt : ¬ k < 0 := by omega
    rw [get_expenses_ultimas_some, if_neg hlt, hnone]
    exact ⟨rfl, List.length_take_le _ _⟩
  · rw [get_expenses_ultimas_some, if_pos hk, hnone]
  · rw [get_expenses_ultimas_some, if_neg (by omega : ¬ (0 : Int) < 0)]
    rfl

/-- Concrete one-record store for the C3 counterexample and witness. -/
def c3Row : Expense := ⟨1, "u", 5, "Food", ⟨1, 1, 1⟩⟩

/-- Concrete store holding only `c3Row`. -/
def c3S : Store := ⟨[c3Row], 2⟩

/-- C3 counterexample: with period `last_n` and `limit = 0` (not a positive
integer) the code returns the empty set, not the full uncapped record set the
claim promises, which here is non-empty. -/
theorem c3_limit_counterexample :
    get_expenses c3S "u" (some "ultimas_x") none (some 0) ⟨1, 1, 2⟩ ⟨1, 1, 2⟩ = []
      ∧ get_expenses c3S "u" (some "ultimas_x") none none ⟨1, 1, 2⟩ ⟨1, 1, 2⟩
        = [c3Row] :=
  ⟨rfl, rfl⟩

/-- Witness for the amended C3 at `k = 1` on the concrete store. -/
theorem c3_limit_witness :
    get_expenses c3S "u" (some "ultimas_x") none (some 1) ⟨1, 1, 2⟩ ⟨1, 1, 2⟩
        = (get_expenses c3S "u" (some "ultimas_x") none none ⟨1, 1, 2⟩
            ⟨1, 1, 2⟩).take (1 : Int).toNat
      ∧ (get_expenses c3S "u" (some "ultimas_x") none (some 1) ⟨1, 1, 2⟩
          ⟨1, 1, 2⟩).length ≤ (1 : Int).toNat :=
  (c3_limit_amended c3S "u" none ⟨1, 1, 2⟩ ⟨1, 1, 2⟩ 1).1 (by decide)

/-- C7: `get_expenses` with period `today` returns exactly the owner's records
whose date component equals the current date — same members, in fact a
permutation of that filtered subset — ordered by timestamp descending. -/
theorem c7_today_filter (s : Store) (user_id : String) (limit : Option Int)
    (now weekAgo : TS) :
    (∀ r, r ∈ get_expenses s user_id (some "hoje") none limit now weekAgo ↔
        (r ∈ s.rows ∧ r.user_id = user_id ∧ r.timestamp.ym = now.ym
          ∧ r.timestamp.day = now.day))
      ∧ List.Perm (get_expenses s user_id (some "hoje") none limit now weekAgo)
          ((s.rows.filter (fun r => decide (r.user_id = user_id))).filter
            (fun r => decide (r.timestamp.ym = now.ym)
              && decide (r.timestamp.day = now.day)))
      ∧ (get_expenses s user_id (some "hoje") none limit now weekAgo).Pairwise
          (fun a b => tsLe b.timestamp a.timestamp = true) := by
  have hget : get_expenses s user_id (some "hoje") none limit now weekAgo
      = insertionSortBy (fun a b => tsLe b.timestamp a.timestamp)
          ((s.rows.filter (fun r => decide (r.user_id = user_id))).filter
            (fun r => decide (r.timestamp.ym = now.ym)
              && decide (r.timestamp.day = now.day))) := by
    cases limit with
    | none => rfl
    | some k => rfl
  rw [hget]
  refine ⟨?_, insertionSortBy_perm _ _, ?_⟩
  · intro r
    rw [mem_insertionSortBy, List.mem_filter, List.mem_filter]
    simp only [Bool.and_eq_true, decide_eq_true_eq, and_assoc]
  · exact insertionSortBy_sorted
      (fun (a b : Expense) => tsLe_total b.timestamp a.timestamp)
      (fun (a b c : Expense) h1 h2 =>
        tsLe_trans c.timestamp b.timestamp a.timestamp h2 h1)
      _

/-- Concrete record whose stored category carries a diacritic. -/
def c5Row : Expense := ⟨1, "u", 5, "Farmácia", ⟨1, 1, 1⟩⟩

/-- Concrete store holding only `c5Row`. -/
def c5S : Store := ⟨[c5Row], 2⟩

/-- C5: a present category filter is first normalized (diacritics stripped,
lowercased) and then matched as a `LIKE` substring pattern against each
record's lowercased but *not* diacritic-stripped category; in particular the
stored "Farmácia" does not match the filter "farmácia", whose normalized form
is "farmacia". -/
theorem c5_category_asymmetry :
    (∀ (s : Store) (user_id f : String) (limit : Option Int) (now weekAgo : TS)
        (r : Expense), f ≠ "" →
        (r ∈ get_expenses s user_id none (some f) limit now weekAgo ↔
          (r ∈ s.rows ∧ r.user_id = user_id
            ∧ likeMatch ('%' :: ((normalize_text f).data ++ ['%']))
                (r.category.data.map asciiLower) = true)))
      ∧ normalize_text "farmácia" = "farmacia"
      ∧ c5Row.category = "Farmácia" ∧ c5Row.user_id = "u" ∧ c5Row ∈ c5S.rows
      ∧ get_expenses c5S "u" none (some "farmácia") none ⟨1, 1, 2⟩ ⟨1, 1, 2⟩
        = [] := by
  refine ⟨?_, by decide, rfl, rfl, by decide, by decide⟩
  intro s user_id f limit now weekAgo r hf
  have hget : get_expenses s user_id none (some f) limit now weekAgo
      = insertionSortBy (fun a b => tsLe b.timestamp a.timestamp)
          (if f = "" then s.rows.filter (fun e => decide (e.user_id = user_id))
           else
            (s.rows.filter (fun e => decide (e.user_id = user_id))).filter
              (fun e => likeMatch ('%' :: ((normalize_text f).data ++ ['%']))
                (e.category.data.map asciiLower))) := rfl
  rw [hget, if_neg hf, mem_insertionSortBy, List.mem_filter, List.mem_filter]
  simp only [decide_eq_true_eq, and_assoc]

/-- Witness for C5's general clause at a concrete store and filter. -/
theorem c5_witness :
    c5Row ∈ get_expenses c5S "u" none (some "x") none ⟨1, 1, 2⟩ ⟨1, 1, 2⟩ ↔
      (c5Row ∈ c5S.rows ∧ c5Row.user_id = "u"
        ∧ likeMatch ('%' :: ((normalize_text "x").data ++ ['%']))
            (c5Row.category.data.map asciiLower) = true) :=
  c5_category_asymmetry.1 c5S "u" "x" none ⟨1, 1, 2⟩ ⟨1, 1, 2⟩ c5Row (by decide)

/-- Concrete record whose category contains no underscore or percent sign. -/
def c10Row : Expense := ⟨1, "u", 5, "ab", ⟨1, 1, 1⟩⟩

/-- Concrete store holding only `c10Row`. -/
def c10S : Store := ⟨[c10Row], 2⟩

/-- C10: `%` and `_` survive `normalize_text` and act as `LIKE` wildcards in
the category filter: the filter "_" matches (and `get_expenses` returns) the
record with category "ab" although that lowercased category does not contain
"_" as a literal substring. -/
theorem c10_like_wildcard :
    normalize_text "_" = "_" ∧ normalize_text "%" = "%"
      ∧ get_expenses c10S "u" none (some "_") none ⟨1, 1, 2⟩ ⟨1, 1, 2⟩
        = [c10Row]
      ∧ hasSub (normalize_text "_").data (c10Row.category.data.map asciiLower)
        = false :=
  ⟨rfl, rfl, by decide, by decide⟩

/-- C4 (amended): `summarize` returns a mapping with exactly one pair per
category occurring in the rows — each category paired with the sum of its
values — ordered by sum descending.  The relative order of equal-sum
categories is *not* the first-encountered input order (the counterexample
below shows the code emitting the other order); the program derives the tie
order from reversing an argsort whose tie behaviour is unspecified, so no
universal tie law holds and none is asserted. -/
theorem c4_summarize_amended (rows : List Expense) :
    (∀ k v, (k, v) ∈ summarize rows ↔
        (k ∈ rows.map (fun r => r.category) ∧ v = catSum rows k))
      ∧ ((summarize rows).map (fun p => p.1)).Nodup
      ∧ (summarize rows).Pairwise (fun p q => q.2 ≤ p.2) := by
  have hkeys_nodup : (insertionSortBy strLeB
      (uniqKeys (rows.map fun r => r.category))).Nodup :=
    ((insertionSortBy_perm strLeB _).nodup_iff).mpr (nodup_uniqKeys _)
  have htotV : ∀ p q : String × Rat,
      decide (p.2 ≤ q.2) = true ∨ decide (q.2 ≤ p.2) = true := by
    intro p q
    rcases le_total p.2 q.2 with h | h
    · exact Or.inl (decide_eq_true h)
    · exact Or.inr (decide_eq_true h)
  have htransV : ∀ p q t : String × Rat, decide (p.2 ≤ q.2) = true →
      decide (q.2 ≤ t.2) = true → decide (p.2 ≤ t.2) = true := by
    intro p q t h1 h2
    rw [decide_eq_true_eq] at h1 h2 ⊢
    exact le_trans h1 h2
  have hunfold : summarize rows = (insertionSortBy
      (fun p q : String × Rat => decide (p.2 ≤ q.2))
      ((insertionSortBy strLeB (uniqKeys (rows.map fun r => r.category))).map
        (fun k => (k, catSum rows k)))).reverse := rfl
  refine ⟨?_, ?_, ?_⟩
  · intro k v
    rw [hunfold, List.mem_reverse, mem_insertionSortBy, List.mem_map]
    constructor
    · rintro ⟨k2, hk2, heq⟩
      rw [Prod.mk.injEq] at heq
      rcases heq with ⟨rfl, rfl⟩
      exact ⟨(mem_uniqKeys _ _).mp ((mem_insertionSortBy _ _ _).mp hk2), rfl⟩
    · rintro ⟨hk, rfl⟩
      exact ⟨k, (mem_insertionSortBy _ _ _).mpr ((mem_uniqKeys _ _).mpr hk), rfl⟩
  · rw [hunfold, List.map_reverse, List.nodup_reverse]
    have hperm := (insertionSortBy_perm
        (fun p q : String × Rat => decide (p.2 ≤ q.2))
        ((insertionSortBy strLeB (uniqKeys (rows.map fun r => r.category))).map
          (fun k => (k, catSum rows k)))).map (fun p => p.1)
    refine hperm.nodup_iff.mpr ?_
    rw [List.map_map,
      map_id_of ((fun p : String × Rat => p.1) ∘ (fun k : String => (k, catSum rows k)))
        _ (fun x _ => rfl)]
    exact hkeys_nodup
  · rw [hunfold]
    refine List.pairwise_reverse.mpr
      ((insertionSortBy_sorted htotV htransV _).imp ?_)
    exact fun h => of_decide_eq_true h

/-- Most recent of the two tied-category rows (category "a"). -/
def c4RowA : Expense := ⟨1, "u", 3, "a", ⟨1, 2, 5⟩⟩

/-- Older of the two tied-category rows (category "b"). -/
def c4RowB : Expense := ⟨2, "u", 3, "b", ⟨1, 2, 4⟩⟩

/-- C4 counterexample: rows given in timestamp-descending order encounter
category "a" first and both categories sum to 3, yet `summarize` emits "b"
first, not the first-encountered "a" the claim demands. -/
theorem c4_tie_counterexample :
    tsLe c4RowB.timestamp c4RowA.timestamp = true
      ∧ c4RowA.category = "a" ∧ c4RowB.category = "b"
      ∧ catSum [c4RowA, c4RowB] "a" = catSum [c4RowA, c4RowB] "b"
      ∧ summarize [c4RowA, c4RowB] = [("b", 3), ("a", 3)]
      ∧ summarize [c4RowA, c4RowB] ≠ [("a", 3), ("b", 3)] := by
  have h1 : catSum [(⟨1, "u", 3, "a", ⟨1, 2, 5⟩⟩ : Expense),
      ⟨2, "u", 3, "b", ⟨1, 2, 4⟩⟩] "a" = 3 := by
    simp [catSum, List.filter]
  have h2 : catSum [(⟨1, "u", 3, "a", ⟨1, 2, 5⟩⟩ : Expense),
      ⟨2, "u", 3, "b", ⟨1, 2, 4⟩⟩] "b" = 3 := by
    simp [catSum, List.filter]
  have hsum : summarize [c4RowA, c4RowB] = [("b", 3), ("a", 3)] := by
    simp only [c4RowA, c4RowB]
    simp [summarize, uniqKeys, insertionSortBy, insertIn, h1, h2]
  refine ⟨by decide, rfl, rfl, ?_, hsum, ?_⟩
  · show catSum [c4RowA, c4RowB] "a" = catSum [c4RowA, c4RowB] "b"
    simp only [c4RowA, c4RowB]
    rw [h1, h2]
  · rw [hsum]
    intro h
    simp at h

/-- Witness for the amended C4 at a concrete row list. -/
theorem c4_witness :
    (∀ k v, (k, v) ∈ summarize [c4RowA, c4RowB] ↔
        (k ∈ [c4RowA, c4RowB].map (fun r => r.category)
          ∧ v = catSum [c4RowA, c4RowB] k))
      ∧ ((summarize [c4RowA, c4RowB]).map (fun p => p.1)).Nodup
      ∧ (summarize [c4RowA, c4RowB]).Pairwise (fun p q => q.2 ≤ p.2) :=
  c4_summarize_amended [c4RowA, c4RowB]
